import Mathlib

set_option maxRecDepth 8000

/-!
Verification of the to-do list manager (src/todo_list_manager.py) against its
natural-language specification.

Modelling conventions (shallow embedding):

* Python strings are sequences of Unicode code points; they are modelled as
  `List Nat`.
* Dates: the program stores due dates as "YYYY-MM-DD" strings and converts them
  with `datetime.strptime`, which yields the midnight of that calendar day.
  The embedding abstracts a calendar day to a day index `d : Nat` and a moment
  in time to a second count `now : Nat`; the midnight of day `d` is the moment
  `d * 86400`, and `datetime.today()` is an arbitrary moment `now`.  The
  calendar-string parsing itself (`strptime` correctness) is not the subject of
  any claim and is abstracted away.
* Python object identity: the in-memory task list holds mutable dict objects,
  and the menu operations resolve a selection in a filtered view back to the
  master list through those references.  Each task object is therefore
  modelled as a `TTask`: a task value together with a `tid : Nat` standing for
  the object address.  Python `==` on task dicts compares only the value part.
* Interactive input: the prompt loops (`input`, `get_due_date`, `get_priority`)
  are the outer driver; each operation is modelled as a function of the values
  those prompts deliver.  A selection read through `int(input(...))` is an
  `Option Int` (`none` models a non-numeric string, where `int` raises
  `ValueError`).
-/

namespace Todo

/-- Task status, per the data model: exactly `pending` or `completed`. -/
inductive Status where
  | pending
  | completed
deriving DecidableEq

/-- Task priority: `low`, `medium` or `high`. -/
inductive Priority where
  | low
  | medium
  | high
deriving DecidableEq

/-- The value part of a task dict, as built by `add_task`:
`{"description": ..., "due_date": ..., "status": ..., "priority": ...}`.
The description is a string (list of code points); the due date is either
absent (`None`) or a calendar day index. -/
structure Task where
  description : List Nat
  due_date : Option Nat
  status : Status
  priority : Priority
deriving DecidableEq

/-- A task object: a task value plus its object identity (`tid` stands for the
address of the Python dict).  Python `==` ignores `tid`. -/
structure TTask where
  tid : Nat
  val : Task
deriving DecidableEq

/-- The `filter_mode` argument of `view_tasks`. -/
inductive FilterMode where
  | all
  | completed
  | pending
  | dueSoon
deriving DecidableEq

/-- Filter predicate of `view_tasks`: which tasks are kept in `visible_tasks`.
For `due_soon` the code keeps a task iff it has a due date and
`strptime(due) <= today + timedelta(days=3)`, that is,
`dd * 86400 <= now + 3 * 86400`. -/
def keepTask (mode : FilterMode) (now : Nat) (t : TTask) : Bool :=
  match mode with
  | .all => true
  | .completed => decide (t.val.status = Status.completed)
  | .pending => decide (t.val.status = Status.pending)
  | .dueSoon =>
    match t.val.due_date with
    | none => false
    | some dd => decide (dd * 86400 ≤ now + 3 * 86400)

/-- The filtered view produced by `view_tasks(tasks, filter_mode, return_filtered=True)`:
the sub-sequence of `tasks` kept by the filter, in order.  The function returns
`visible_tasks`, which is `[]` both when `tasks` is empty and when nothing
matches, so the plain filter is the whole contract. -/
def view_tasks (tasks : List TTask) (mode : FilterMode) (now : Nat) : List TTask :=
  tasks.filter (keepTask mode now)

/-- The derived note printed next to a displayed task. -/
inductive StatusNote where
  | absent
  | overdue
  | dueSoon
deriving DecidableEq

/-- The warning note computed by `view_tasks` for each displayed task:
OVERDUE when `strptime(due) < today` (midnight of the due day is before the
current moment), else Due Soon when `strptime(due) <= today + timedelta(days=3)`,
else nothing.  `now` is the current moment in seconds. -/
def statusNote (due : Option Nat) (now : Nat) : StatusNote :=
  match due with
  | none => .absent
  | some dd =>
    if dd * 86400 < now then .overdue
    else if dd * 86400 ≤ now + 3 * 86400 then .dueSoon
    else .absent

/-- Result of one menu operation: the collection afterwards, whether
`save_tasks` was called, and whether an invalid-selection error message was
printed. -/
structure OpResult where
  tasks : List TTask
  saved : Bool
  errored : Bool
deriving DecidableEq

/-- The `add_task` operation, applied to the values delivered by its prompts:
the stripped description (taken as given, possibly empty), the optional due
date from `get_due_date`, and the priority from `get_priority`.  `tid` is the
fresh object identity of the new dict.  The new task is appended with status
`pending` and the collection is saved. -/
def add_task (tasks : List TTask) (tid : Nat) (description : List Nat)
    (due : Option Nat) (priority : Priority) : OpResult :=
  ⟨tasks ++ [⟨tid, ⟨description, due, .pending, priority⟩⟩], true, false⟩

/-- The `mark_completed` operation.  `inp` is the result of `int(input(...))`
(`none` when `int` raised).  The selection is 1-based into the `pending`
filtered view; a valid selection mutates the selected object (by identity) and
saves; an empty view returns silently; a bad selection prints an error and
changes nothing. -/
def mark_completed (tasks : List TTask) (now : Nat) (inp : Option Int) : OpResult :=
  let vis := view_tasks tasks .pending now
  if vis.isEmpty then ⟨tasks, false, false⟩
  else
    match inp with
    | none => ⟨tasks, false, true⟩
    | some n =>
      if n < 1 then ⟨tasks, false, true⟩
      else
        match vis[n.toNat - 1]? with
        | none => ⟨tasks, false, true⟩
        | some sel =>
          ⟨tasks.map (fun t =>
            if t.tid = sel.tid then ⟨t.tid, { t.val with status := .completed }⟩ else t),
           true, false⟩

/-- The membership test `new_priority in ["low", "medium", "high"]` performed
by `edit_task` on the stripped, lowered raw input, returning which priority
matched.  Strings are code-point lists: low = [108,111,119],
medium = [109,101,100,105,117,109], high = [104,105,103,104]. -/
def prioOfCodes (s : List Nat) : Option Priority :=
  if s = [108, 111, 119] then some .low
  else if s = [109, 101, 100, 105, 117, 109] then some .medium
  else if s = [104, 105, 103, 104] then some .high
  else none

/-- Field update of `edit_task` on the selected task value: the description is
replaced only when the new one is non-blank, the due date only when
`get_due_date` returned a date, the priority only when the raw input is one of
the three valid words.  Invalid priority input is silently skipped. -/
def applyEdit (v : Task) (new_desc : List Nat) (new_due : Option Nat)
    (new_priority : List Nat) : Task :=
  let v1 := if new_desc ≠ [] then { v with description := new_desc } else v
  let v2 := match new_due with
    | some d => { v1 with due_date := some d }
    | none => v1
  match prioOfCodes new_priority with
  | some p => { v2 with priority := p }
  | none => v2

/-- The `edit_task` operation.  The selection is 1-based into the unfiltered
(`all`) view; a valid selection applies `applyEdit` to the selected object (by
identity) and saves; a bad selection prints an error and changes nothing. -/
def edit_task (tasks : List TTask) (now : Nat) (inp : Option Int)
    (new_desc : List Nat) (new_due : Option Nat) (new_priority : List Nat) : OpResult :=
  let vis := view_tasks tasks .all now
  if vis.isEmpty then ⟨tasks, false, false⟩
  else
    match inp with
    | none => ⟨tasks, false, true⟩
    | some n =>
      if n < 1 then ⟨tasks, false, true⟩
      else
        match vis[n.toNat - 1]? with
        | none => ⟨tasks, false, true⟩
        | some sel =>
          ⟨tasks.map (fun t =>
            if t.tid = sel.tid then ⟨t.tid, applyEdit t.val new_desc new_due new_priority⟩
            else t),
           true, false⟩

/-- Python `tasks.remove(removed)`: removes the first element of `tasks` that
compares equal (`==`, value equality on the dict) to `removed`.  The empty-list
case never arises in the program, where `removed` is drawn from a sub-sequence
of `tasks`. -/
def removeFirstVal : List TTask → Task → List TTask
  | [], _ => []
  | t :: ts, v => if t.val = v then ts else t :: removeFirstVal ts v

/-- The `delete_task` operation.  The selection is 1-based into the unfiltered
view; on a valid selection the code asks for confirmation and, when confirmed,
calls `tasks.remove(removed)` and saves; declining leaves everything unchanged;
a bad selection prints an error and changes nothing. -/
def delete_task (tasks : List TTask) (now : Nat) (inp : Option Int)
    (confirm : Bool) : OpResult :=
  let vis := view_tasks tasks .all now
  if vis.isEmpty then ⟨tasks, false, false⟩
  else
    match inp with
    | none => ⟨tasks, false, true⟩
    | some n =>
      if n < 1 then ⟨tasks, false, true⟩
      else
        match vis[n.toNat - 1]? with
        | none => ⟨tasks, false, true⟩
        | some sel =>
          if confirm then ⟨removeFirstVal tasks sel.val, true, false⟩
          else ⟨tasks, false, false⟩

/-- Invalid 1-based selection input for a view of length `len`: the raw input
was non-numeric (`int` raised `ValueError`), or the number is below 1 or above
the view length (`0 <= idx < len(visible)` fails for `idx = n - 1`). -/
def badIdx : Option Int → Nat → Bool
  | none, _ => true
  | some n, len => decide (n < 1) || decide ((len : Int) < n)

/-- Concrete task value used by counterexamples: description "a", no due date,
pending, medium priority. -/
def exA : Task := ⟨[97], none, .pending, .medium⟩

/-- Concrete task value used by counterexamples: description "b", no due date,
pending, medium priority. -/
def exX : Task := ⟨[98], none, .pending, .medium⟩

/-- Collection with two value-identical task objects (`exA` twice, distinct
object identities) separated by a different one. -/
def exDupTasks : List TTask := [⟨0, exA⟩, ⟨1, exX⟩, ⟨2, exA⟩]

/-- Task value due on day 0, used for the annotation counterexample. -/
def exDueToday : Task := ⟨[97], some 0, .pending, .medium⟩

/-- C1: the claim says a displayed task whose due date `d` satisfies
`today ≤ d ≤ today + 3` is annotated due soon, in particular a task due
exactly today is due soon, never overdue.  The code instead compares the
midnight of the due date (`strptime`) against the full current moment
(`datetime.today()`), so at any time past midnight a task due today is
annotated OVERDUE.  Failing input: current moment `now = 43200` (noon of day
0) and a task due on day 0, displayed by the `all` view: today = 0 ≤ due day
0, yet the note is `overdue` and not `dueSoon`. -/
theorem claim_C1 :
    (⟨5, exDueToday⟩ : TTask) ∈ view_tasks [⟨5, exDueToday⟩] .all 43200
    ∧ 43200 / 86400 ≤ 0
    ∧ statusNote (some 0) 43200 = StatusNote.overdue
    ∧ statusNote (some 0) 43200 ≠ StatusNote.dueSoon := by
  decide

/-- C2: a task is included in the `due_soon` view iff it has a due date `dd`
with `dd ≤ today + 3` where today is the calendar day of the current moment
(`now / 86400`); there is no lower bound, and tasks without a due date are
excluded. -/
theorem claim_C2 (tasks : List TTask) (now : Nat) (t : TTask) (h : t ∈ tasks) :
    t ∈ view_tasks tasks .dueSoon now
      ↔ ∃ dd, t.val.due_date = some dd ∧ dd ≤ now / 86400 + 3 := by
  rw [view_tasks, List.mem_filter]
  constructor
  · rintro ⟨-, hk⟩
    rw [keepTask] at hk
    cases hdue : t.val.due_date with
    | none => rw [hdue] at hk; simp at hk
    | some dd =>
      rw [hdue] at hk
      simp only [decide_eq_true_eq] at hk
      exact ⟨dd, rfl, by omega⟩
  · rintro ⟨dd, hdue, hle⟩
    refine ⟨h, ?_⟩
    rw [keepTask, hdue]
    simp only [decide_eq_true_eq]
    omega

/-- Witness for C2 at a concrete input: a single task due on day 2 seen from
moment 0 (day 0): it is in the due-soon view, and the iff instantiates. -/
theorem claim_C2_witness :
    (⟨0, ⟨[97], some 2, .pending, .medium⟩⟩ : TTask) ∈ [(⟨0, ⟨[97], some 2, .pending, .medium⟩⟩ : TTask)]
    ∧ ((⟨0, ⟨[97], some 2, .pending, .medium⟩⟩ : TTask) ∈
        view_tasks [⟨0, ⟨[97], some 2, .pending, .medium⟩⟩] .dueSoon 0
      ↔ ∃ dd, (⟨0, ⟨[97], some 2, .pending, .medium⟩⟩ : TTask).val.due_date = some dd
          ∧ dd ≤ 0 / 86400 + 3) :=
  ⟨by decide, claim_C2 _ 0 _ (by decide)⟩

/-- Helper: a list with an element at position `i` is not empty. -/
theorem isEmpty_false_of_lt {α : Type} {l : List α} {i : Nat} (h : i < l.length) :
    l.isEmpty = false := by
  cases l
  · simp at h
  · rfl

/-- Helper: `tasks.remove(v)` removes exactly the first value-equal entry.
When some entry of `ts` has value `v`, the result is `ts` with the entry at
the first value-matching position erased. -/
theorem removeFirstVal_spec (v : Task) :
    ∀ ts : List TTask, (∃ t ∈ ts, t.val = v) →
      ∃ i, (∃ u, ts[i]? = some u ∧ u.val = v)
        ∧ (∀ j, j < i → ∀ u, ts[j]? = some u → u.val ≠ v)
        ∧ removeFirstVal ts v = ts.eraseIdx i := by
  intro ts
  induction ts with
  | nil => rintro ⟨t, ht, -⟩; exact absurd ht (List.not_mem_nil t)
  | cons t ts ih =>
    intro hex
    by_cases hv : t.val = v
    · refine ⟨0, ⟨t, by simp, hv⟩, ?_, ?_⟩
      · intro j hj
        exact absurd hj (Nat.not_lt_zero j)
      · simp [removeFirstVal, hv]
    · obtain ⟨u0, hu0, hu0v⟩ := hex
      have hu0' : u0 ∈ ts := by
        rcases List.mem_cons.mp hu0 with rfl | h
        · exact absurd hu0v hv
        · exact h
      obtain ⟨i, hfound, hbefore, heq⟩ := ih ⟨u0, hu0', hu0v⟩
      refine ⟨i + 1, ?_, ?_, ?_⟩
      · simpa using hfound
      · intro j hj u hu
        cases j with
        | zero => simp at hu; rw [← hu]; exact hv
        | succ j' => exact hbefore j' (by omega) u (by simpa using hu)
      · simp [removeFirstVal, hv, heq, List.eraseIdx_cons_succ]

/-- C5 counterexample: with two value-identical task objects (object
identities 0 and 2), selecting the third entry of the view (the object with
identity 2) and confirming removes the FIRST value-equal object (identity 0),
not the selected one: the result differs from removing the selected object by
identity, and even the order of the remaining task values differs. -/
theorem claim_C5_counterexample :
    (view_tasks exDupTasks .all 0)[(3 : Int).toNat - 1]? = some ⟨2, exA⟩
    ∧ (delete_task exDupTasks 0 (some 3) true).tasks = [⟨1, exX⟩, ⟨2, exA⟩]
    ∧ exDupTasks.filter (fun t => t.tid != 2) = [⟨0, exA⟩, ⟨1, exX⟩]
    ∧ (delete_task exDupTasks 0 (some 3) true).tasks
        ≠ exDupTasks.filter (fun t => t.tid != 2) := by
  decide

/-- C5 amended: a confirmed Delete with a valid 1-based selection removes the
first entry of the collection whose value equals the selected view entry
(`list.remove` compares by `==`, not by object identity): the result is the
collection with the earliest value-matching position erased, and no earlier
entry matches. -/
theorem claim_C5 (tasks : List TTask) (now : Nat) (n : Int) (sel : TTask)
    (h1 : 1 ≤ n) (hsel : (view_tasks tasks .all now)[n.toNat - 1]? = some sel) :
    ∃ i, (∃ u, tasks[i]? = some u ∧ u.val = sel.val)
      ∧ (∀ j, j < i → ∀ u, tasks[j]? = some u → u.val ≠ sel.val)
      ∧ (delete_task tasks now (some n) true).tasks = tasks.eraseIdx i := by
  obtain ⟨hlt, hget⟩ := List.getElem?_eq_some_iff.mp hsel
  have hmemv : sel ∈ view_tasks tasks .all now := hget ▸ List.getElem_mem hlt
  have hmem : sel ∈ tasks := List.mem_of_mem_filter hmemv
  have hie : (view_tasks tasks .all now).isEmpty = false := isEmpty_false_of_lt hlt
  have hres : (delete_task tasks now (some n) true).tasks = removeFirstVal tasks sel.val := by
    simp [delete_task, hie, show ¬ n < 1 by omega, hsel]
  obtain ⟨i, hf, hb, he⟩ := removeFirstVal_spec sel.val tasks ⟨sel, hmem, rfl⟩
  exact ⟨i, hf, hb, by rw [hres, he]⟩

/-- Witness for C5 at a concrete input: a single task, selection 1. -/
theorem claim_C5_witness :
    (1 : Int) ≤ 1
    ∧ (view_tasks [⟨0, exA⟩] .all 0)[(1 : Int).toNat - 1]? = some ⟨0, exA⟩
    ∧ ∃ i, (∃ u, ([⟨0, exA⟩] : List TTask)[i]? = some u ∧ u.val = (⟨0, exA⟩ : TTask).val)
        ∧ (∀ j, j < i → ∀ u, ([⟨0, exA⟩] : List TTask)[j]? = some u
            → u.val ≠ (⟨0, exA⟩ : TTask).val)
        ∧ (delete_task [⟨0, exA⟩] 0 (some 1) true).tasks
            = ([⟨0, exA⟩] : List TTask).eraseIdx i :=
  ⟨by decide, by decide, claim_C5 [⟨0, exA⟩] 0 1 ⟨0, exA⟩ (by decide) (by decide)⟩

/-- C6: MarkCompleted, Edit and Delete, given a non-numeric or out-of-range
selection against the (nonempty) filtered view just shown, print an error,
mutate no task, remove no task, and perform no persistence write. -/
theorem claim_C6 (tasks : List TTask) (now : Nat) (inp : Option Int)
    (new_desc : List Nat) (new_due : Option Nat) (new_priority : List Nat)
    (confirm : Bool) :
    (view_tasks tasks .pending now ≠ [] →
      badIdx inp (view_tasks tasks .pending now).length = true →
      mark_completed tasks now inp = ⟨tasks, false, true⟩)
    ∧ (view_tasks tasks .all now ≠ [] →
      badIdx inp (view_tasks tasks .all now).length = true →
      edit_task tasks now inp new_desc new_due new_priority = ⟨tasks, false, true⟩
      ∧ delete_task tasks now inp confirm = ⟨tasks, false, true⟩) := by
  constructor
  · intro hne hbad
    have hie : (view_tasks tasks .pending now).isEmpty = false := by
      simpa [List.isEmpty_iff] using hne
    have hlen : 1 ≤ (view_tasks tasks .pending now).length :=
      List.length_pos.mpr hne
    cases inp with
    | none => simp [mark_completed, hie]
    | some n =>
      simp only [badIdx, Bool.or_eq_true, decide_eq_true_eq] at hbad
      rcases hbad with hl | hr
      · simp [mark_completed, hie, hl]
      · have hnone : (view_tasks tasks .pending now)[n.toNat - 1]? = none :=
          List.getElem?_eq_none (by omega)
        simp [mark_completed, hie, hnone, show ¬ n < 1 by omega]
  · intro hne hbad
    have hie : (view_tasks tasks .all now).isEmpty = false := by
      simpa [List.isEmpty_iff] using hne
    have hlen : 1 ≤ (view_tasks tasks .all now).length :=
      List.length_pos.mpr hne
    cases inp with
    | none => exact ⟨by simp [edit_task, hie], by simp [delete_task, hie]⟩
    | some n =>
      simp only [badIdx, Bool.or_eq_true, decide_eq_true_eq] at hbad
      rcases hbad with hl | hr
      · exact ⟨by simp [edit_task, hie, hl], by simp [delete_task, hie, hl]⟩
      · have hnone : (view_tasks tasks .all now)[n.toNat - 1]? = none :=
          List.getElem?_eq_none (by omega)
        exact ⟨by simp [edit_task, hie, hnone, show ¬ n < 1 by omega],
               by simp [delete_task, hie, hnone, show ¬ n < 1 by omega]⟩

/-- Witness for C6 at a concrete input: one pending task, selection 5 (out of
range for every view of length 1): all three operations report an error and
leave the collection and the store untouched. -/
theorem claim_C6_witness :
    mark_completed [⟨0, exA⟩] 0 (some 5) = ⟨[⟨0, exA⟩], false, true⟩
    ∧ edit_task [⟨0, exA⟩] 0 (some 5) [] none [] = ⟨[⟨0, exA⟩], false, true⟩
    ∧ delete_task [⟨0, exA⟩] 0 (some 5) true = ⟨[⟨0, exA⟩], false, true⟩ :=
  ⟨(claim_C6 [⟨0, exA⟩] 0 (some 5) [] none [] true).1 (by decide) (by decide),
   ((claim_C6 [⟨0, exA⟩] 0 (some 5) [] none [] true).2 (by decide) (by decide)).1,
   ((claim_C6 [⟨0, exA⟩] 0 (some 5) [] none [] true).2 (by decide) (by decide)).2⟩

/-- Helper: an all-blank edit leaves the task value untouched. -/
theorem applyEdit_blank (v : Task) : applyEdit v [] none [] = v := rfl

/-- C7: an Edit with a valid selection and every field input blank (blank
description, skipped due date, blank priority) leaves every task unchanged and
still triggers a persistence write. -/
theorem claim_C7 (tasks : List TTask) (now : Nat) (n : Int) (h1 : 1 ≤ n)
    (h2 : n.toNat ≤ (view_tasks tasks .all now).length) :
    edit_task tasks now (some n) [] none [] = ⟨tasks, true, false⟩ := by
  have hlt : n.toNat - 1 < (view_tasks tasks .all now).length := by omega
  have hie : (view_tasks tasks .all now).isEmpty = false := isEmpty_false_of_lt hlt
  have hsome : (view_tasks tasks .all now)[n.toNat - 1]?
      = some (view_tasks tasks .all now)[n.toNat - 1] :=
    List.getElem?_eq_getElem hlt
  have hres : edit_task tasks now (some n) [] none []
      = ⟨tasks.map (fun t =>
          if t.tid = (view_tasks tasks .all now)[n.toNat - 1].tid
          then ⟨t.tid, applyEdit t.val [] none []⟩ else t), true, false⟩ := by
    simp [edit_task, hie, show ¬ n < 1 by omega, hsome]
  rw [hres]
  have hmap : tasks.map (fun t =>
      if t.tid = (view_tasks tasks .all now)[n.toNat - 1].tid
      then ⟨t.tid, applyEdit t.val [] none []⟩ else t) = tasks := by
    have harm : ∀ t : TTask,
        (if t.tid = (view_tasks tasks .all now)[n.toNat - 1].tid
          then (⟨t.tid, applyEdit t.val [] none []⟩ : TTask) else t) = t := by
      intro t
      rw [applyEdit_blank]
      split <;> rfl
    simp [harm]
  rw [hmap]

/-- Witness for C7 at a concrete input. -/
theorem claim_C7_witness :
    edit_task [⟨0, exA⟩] 0 (some 1) [] none [] = ⟨[⟨0, exA⟩], true, false⟩ :=
  claim_C7 [⟨0, exA⟩] 0 1 (by decide) (by decide)

/-- Helper: an edit whose priority input is invalid never changes the
priority field. -/
theorem applyEdit_priority (v : Task) (d : List Nat) (dd : Option Nat)
    (p : List Nat) (hp : prioOfCodes p = none) :
    (applyEdit v d dd p).priority = v.priority := by
  cases dd <;> by_cases hd : d = [] <;> simp [applyEdit, hp, hd]

/-- C8 counterexample: editing the only task with new description "b"
([98]) and the invalid, non-blank priority "x" ([120]) reports no error,
mutates the task (its description changes) and still saves — contradicting
the claim that a bad priority value is reported and no state mutation
occurs. -/
theorem claim_C8_counterexample :
    prioOfCodes [120] = none ∧ ([120] : List Nat) ≠ []
    ∧ (edit_task [⟨0, exA⟩] 0 (some 1) [98] none [120]).errored = false
    ∧ (edit_task [⟨0, exA⟩] 0 (some 1) [98] none [120]).tasks ≠ [⟨0, exA⟩]
    ∧ (edit_task [⟨0, exA⟩] 0 (some 1) [98] none [120]).saved = true := by
  decide

/-- C8 amended: an Edit with a valid selection whose priority input is not a
match of low, medium or high silently skips only the priority field: no error
is reported, the other supplied fields are still applied, every priority in
the collection is unchanged, and a persistence write still occurs. -/
theorem claim_C8 (tasks : List TTask) (now : Nat) (n : Int) (d : List Nat)
    (dd : Option Nat) (p : List Nat) (hp : prioOfCodes p = none) (h1 : 1 ≤ n)
    (h2 : n.toNat ≤ (view_tasks tasks .all now).length) :
    (edit_task tasks now (some n) d dd p).errored = false
    ∧ (edit_task tasks now (some n) d dd p).saved = true
    ∧ (edit_task tasks now (some n) d dd p).tasks.length = tasks.length
    ∧ ∀ i (hi : i < tasks.length)
        (hi2 : i < (edit_task tasks now (some n) d dd p).tasks.length),
        ((edit_task tasks now (some n) d dd p).tasks[i]).val.priority
          = (tasks[i]).val.priority := by
  have hlt : n.toNat - 1 < (view_tasks tasks .all now).length := by omega
  have hie : (view_tasks tasks .all now).isEmpty = false := by
    rcases h : view_tasks tasks .all now with _ | _
    · rw [h] at hlt; simp at hlt
    · rfl
  have hsome : (view_tasks tasks .all now)[n.toNat - 1]?
      = some (view_tasks tasks .all now)[n.toNat - 1] :=
    List.getElem?_eq_getElem hlt
  have hres : edit_task tasks now (some n) d dd p
      = ⟨tasks.map (fun t =>
          if t.tid = (view_tasks tasks .all now)[n.toNat - 1].tid
          then ⟨t.tid, applyEdit t.val d dd p⟩ else t), true, false⟩ := by
    simp [edit_task, hie, show ¬ n < 1 by omega, hsome]
  rw [hres]
  refine ⟨rfl, rfl, List.length_map _ _, ?_⟩
  intro i hi hi2
  simp only [List.getElem_map]
  split
  · exact applyEdit_priority _ d dd p hp
  · rfl

/-- Witness for C8 at a concrete input: priority input "x". -/
theorem claim_C8_witness :
    prioOfCodes [120] = none ∧ (1 : Int) ≤ 1
    ∧ (edit_task [⟨0, exA⟩] 0 (some 1) [98] none [120]).errored = false
    ∧ (edit_task [⟨0, exA⟩] 0 (some 1) [98] none [120]).saved = true :=
  ⟨by decide, by decide,
   (claim_C8 [⟨0, exA⟩] 0 1 [98] none [120] (by decide) (by decide) (by decide)).1,
   (claim_C8 [⟨0, exA⟩] 0 1 [98] none [120] (by decide) (by decide) (by decide)).2.1⟩

/-- One menu operation applied to the collection, with arbitrary prompt
inputs: the step relation of the running session.  The session of `main`
starts from the loaded collection; reachability here starts from the empty
collection, the state of a fresh store. -/
inductive Step : List TTask → List TTask → Prop where
  | add (s : List TTask) (tid : Nat) (d : List Nat) (dd : Option Nat) (p : Priority) :
      Step s (add_task s tid d dd p).tasks
  | mark (s : List TTask) (now : Nat) (inp : Option Int) :
      Step s (mark_completed s now inp).tasks
  | edit (s : List TTask) (now : Nat) (inp : Option Int) (d : List Nat)
      (dd : Option Nat) (p : List Nat) :
      Step s (edit_task s now inp d dd p).tasks
  | del (s : List TTask) (now : Nat) (inp : Option Int) (c : Bool) :
      Step s (delete_task s now inp c).tasks

/-- Collection states reachable by the repository operations from the empty
collection. -/
inductive Reachable : List TTask → Prop where
  | init : Reachable []
  | next (s s2 : List TTask) : Reachable s → Step s s2 → Reachable s2

/-- The step relation restricted to Add operations whose (stripped)
description input is non-blank; the other operations are unrestricted. -/
inductive StepNE : List TTask → List TTask → Prop where
  | add (s : List TTask) (tid : Nat) (d : List Nat) (dd : Option Nat) (p : Priority) :
      d ≠ [] → StepNE s (add_task s tid d dd p).tasks
  | mark (s : List TTask) (now : Nat) (inp : Option Int) :
      StepNE s (mark_completed s now inp).tasks
  | edit (s : List TTask) (now : Nat) (inp : Option Int) (d : List Nat)
      (dd : Option Nat) (p : List Nat) :
      StepNE s (edit_task s now inp d dd p).tasks
  | del (s : List TTask) (now : Nat) (inp : Option Int) (c : Bool) :
      StepNE s (delete_task s now inp c).tasks

/-- Reachability when every Add receives a non-blank description. -/
inductive ReachableNE : List TTask → Prop where
  | init : ReachableNE []
  | next (s s2 : List TTask) : ReachableNE s → StepNE s s2 → ReachableNE s2

/-- Helper: membership in the result of `tasks.remove`. -/
theorem mem_removeFirstVal {t : TTask} (v : Task) :
    ∀ ts : List TTask, t ∈ removeFirstVal ts v → t ∈ ts := by
  intro ts
  induction ts with
  | nil => intro h; simp [removeFirstVal] at h
  | cons u ts ih =>
    intro h
    rw [removeFirstVal] at h
    by_cases hv : u.val = v
    · rw [if_pos hv] at h
      exact List.mem_cons_of_mem u h
    · rw [if_neg hv] at h
      rcases List.mem_cons.mp h with rfl | h2
      · exact List.mem_cons_self t ts
      · exact List.mem_cons_of_mem u (ih h2)

/-- Helper: `applyEdit` never blanks a non-blank description. -/
theorem applyEdit_description_ne_nil {v : Task} (hd : v.description ≠ [])
    (d : List Nat) (dd : Option Nat) (p : List Nat) :
    (applyEdit v d dd p).description ≠ [] := by
  by_cases hdn : d = [] <;>
    cases dd <;>
      cases hpc : prioOfCodes p <;>
        simp [applyEdit, hdn, hpc, hd]

/-- C9 counterexample: the Add operation performs no emptiness check on the
stripped description input, so a blank input reaches a collection containing a
task whose description is empty — refuting the claimed invariant. -/
theorem claim_C9_counterexample :
    Reachable [⟨0, ⟨[], none, .pending, .medium⟩⟩]
    ∧ (⟨0, ⟨[], none, .pending, .medium⟩⟩ : TTask).val.description = [] :=
  ⟨Reachable.next [] _ Reachable.init (Step.add [] 0 [] none .medium), rfl⟩

/-- C9 amended: Add appends the stripped description exactly as given, with no
emptiness check, so the non-empty-description invariant holds only for the
runs in which every Add input is non-blank; in those runs every reachable
collection state (from the empty collection) contains only tasks with
non-empty descriptions, since MarkCompleted, Edit and Delete all preserve
non-emptiness. -/
theorem claim_C9 (s : List TTask) (h : ReachableNE s) :
    ∀ t ∈ s, t.val.description ≠ [] := by
  induction h with
  | init => intro t ht; exact absurd ht (List.not_mem_nil t)
  | next s s2 _ hstep ih =>
    cases hstep with
    | add tid d dd p hd =>
      intro t ht
      simp only [add_task] at ht
      rcases List.mem_append.mp ht with h1 | h2
      · exact ih t h1
      · rcases List.mem_singleton.mp h2 with rfl
        exact hd
    | mark now inp =>
      intro t ht
      simp only [mark_completed] at ht
      split at ht
      · exact ih t ht
      · split at ht
        · exact ih t ht
        · split at ht
          · exact ih t ht
          · split at ht
            · exact ih t ht
            · obtain ⟨u, hu, hut⟩ := List.mem_map.mp ht
              have hne := ih u hu
              subst hut
              split <;> simpa using hne
    | edit now inp d dd p =>
      intro t ht
      simp only [edit_task] at ht
      split at ht
      · exact ih t ht
      · split at ht
        · exact ih t ht
        · split at ht
          · exact ih t ht
          · split at ht
            · exact ih t ht
            · obtain ⟨u, hu, hut⟩ := List.mem_map.mp ht
              have hne := ih u hu
              subst hut
              split
              · exact applyEdit_description_ne_nil hne d dd p
              · exact hne
    | del now inp c =>
      intro t ht
      simp only [delete_task] at ht
      split at ht
      · exact ih t ht
      · split at ht
        · exact ih t ht
        · split at ht
          · exact ih t ht
          · split at ht
            · exact ih t ht
            · split at ht
              · exact ih t (mem_removeFirstVal _ s ht)
              · exact ih t ht

/-- Witness for C9 at a concrete input: one Add of a non-blank description
reaches a state with only non-empty descriptions. -/
theorem claim_C9_witness :
    (⟨0, exA⟩ : TTask).val.description ≠ [] :=
  claim_C9 [⟨0, exA⟩]
    (ReachableNE.next [] _ ReachableNE.init (StepNE.add [] 0 [97] none .medium (by decide)))
    ⟨0, exA⟩ (by decide)

/-- C10: an Edit never clears a due date.  The due-date input is either a
skip (`None`, which leaves the field alone) or a valid date, so after any Edit
every task that had a due date still has one, position by position. -/
theorem claim_C10 (tasks : List TTask) (now : Nat) (inp : Option Int)
    (d : List Nat) (dd : Option Nat) (p : List Nat) (i : Nat)
    (hi : i < tasks.length)
    (hi2 : i < (edit_task tasks now inp d dd p).tasks.length)
    (hdue : (tasks[i]).val.due_date.isSome = true) :
    ((edit_task tasks now inp d dd p).tasks[i]).val.due_date.isSome = true := by
  have hshape : (edit_task tasks now inp d dd p).tasks = tasks
      ∨ ∃ sel : TTask, (edit_task tasks now inp d dd p).tasks
          = tasks.map (fun t =>
              if t.tid = sel.tid then ⟨t.tid, applyEdit t.val d dd p⟩ else t) := by
    simp only [edit_task]
    split
    · exact Or.inl rfl
    · split
      · exact Or.inl rfl
      · split
        · exact Or.inl rfl
        · split
          · exact Or.inl rfl
          · rename_i sel heq
            exact Or.inr ⟨sel, rfl⟩
  rcases hshape with heq | ⟨sel, heq⟩
  · simp only [heq] at hi2 ⊢
    exact hdue
  · simp only [heq, List.getElem_map] at hi2 ⊢
    split
    · by_cases hdn : d = [] <;>
        cases dd <;>
          cases hpc : prioOfCodes p <;>
            simp_all [applyEdit, hpc]
    · exact hdue

/-- Witness for C10 at a concrete input: a task due on day 2, edited with a
skipped date input, still has a due date. -/
theorem claim_C10_witness :
    ((⟨0, ⟨[97], some 2, .pending, .medium⟩⟩ : TTask) : TTask).val.due_date.isSome = true
    ∧ ((edit_task [⟨0, ⟨[97], some 2, .pending, .medium⟩⟩] 0 (some 1) [] none
        []).tasks.get ⟨0, by decide⟩).val.due_date.isSome = true :=
  ⟨by decide,
   claim_C10 [⟨0, ⟨[97], some 2, .pending, .medium⟩⟩] 0 (some 1) [] none [] 0
     (by decide) (by decide) (by decide)⟩

/-!
## Persistence layer

`load_tasks` opens the store file and returns `json.load`, catching only
`json.JSONDecodeError` (returning `[]`), and returns `[]` when the file does
not exist; `save_tasks` writes `json.dump(tasks, file, indent=4)`.  The
embedding models the file content as a list of code points, JSON values as a
concrete tree, and implements the exact `json` module surface the program
touches: the CPython pretty printer for `indent=4` with `ensure_ascii`
escaping, and the strict decoder (string escapes with surrogate pairs,
`NaN`/`Infinity` literals, the number lexeme grammar, whitespace handling).
Numeric literals are carried as raw lexemes: the program never writes numbers
(all task fields are strings or null), so float re-formatting on output never
arises in any claim.
-/

mutual
/-- A parsed JSON value (what `json.load` yields). -/
inductive Json where
  | null
  | bool (b : Bool)
  | num (lex : List Nat)
  | str (s : List Nat)
  | arr (elems : JArr)
  | obj (members : JObj)
deriving DecidableEq
/-- Elements of a JSON array, in order. -/
inductive JArr where
  | nil
  | cons (hd : Json) (tl : JArr)
deriving DecidableEq
/-- Members of a JSON object, in insertion order (Python dicts keep it). -/
inductive JObj where
  | nil
  | cons (key : List Nat) (val : Json) (tl : JObj)
deriving DecidableEq
end

/-- Lowercase hex digit character of a value below 16. -/
def hexDig (n : Nat) : Nat := if n < 10 then 48 + n else 87 + n

/-- The four lowercase hex digits printed by a `\uXXXX` escape. -/
def hex4 (n : Nat) : List Nat :=
  [hexDig (n / 4096 % 16), hexDig (n / 256 % 16), hexDig (n / 16 % 16), hexDig (n % 16)]

/-- CPython `json` string escaping with `ensure_ascii=True`, one code point:
quote and backslash escaped; the five short control escapes; `\uXXXX` for the
other control characters and for every code point outside printable ASCII;
surrogate pairs for code points above 0xFFFF. -/
def escChar (c : Nat) : List Nat :=
  if c = 34 then [92, 34]
  else if c = 92 then [92, 92]
  else if c = 8 then [92, 98]
  else if c = 9 then [92, 116]
  else if c = 10 then [92, 110]
  else if c = 12 then [92, 102]
  else if c = 13 then [92, 114]
  else if c < 32 then 92 :: 117 :: hex4 c
  else if c < 127 then [c]
  else if c < 65536 then 92 :: 117 :: hex4 c
  else 92 :: 117 :: hex4 (55296 + (c - 65536) / 1024) ++ 92 :: 117 :: hex4 (56320 + (c - 65536) % 1024)

/-- A whole string body escaped. -/
def escStr : List Nat → List Nat
  | [] => []
  | c :: cs => escChar c ++ escStr cs

/-- Indentation written by `json.dump(indent=4)` at nesting level `lvl`. -/
def pad (lvl : Nat) : List Nat := List.replicate (4 * lvl) 32

mutual
/-- The exact output of `json.dump(value, file, indent=4)` for a value at
nesting level `lvl`: containers put every child on its own indented line, the
item separator is a comma plus newline, the key separator is a colon plus
space, and empty containers collapse. -/
def dumpVal (lvl : Nat) : Json → List Nat
  | .null => [110, 117, 108, 108]
  | .bool true => [116, 114, 117, 101]
  | .bool false => [102, 97, 108, 115, 101]
  | .num lex => lex
  | .str s => 34 :: (escStr s ++ [34])
  | .arr .nil => [91, 93]
  | .arr (.cons h t) =>
    91 :: 10 :: (pad (lvl + 1) ++ dumpVal (lvl + 1) h ++ dumpArr (lvl + 1) t
      ++ 10 :: (pad lvl ++ [93]))
  | .obj .nil => [123, 125]
  | .obj (.cons k v t) =>
    123 :: 10 :: (pad (lvl + 1) ++ 34 :: (escStr k ++ 34 :: 58 :: 32 :: dumpVal (lvl + 1) v)
      ++ dumpObj (lvl + 1) t ++ 10 :: (pad lvl ++ [125]))
/-- Second and later array elements: separator plus indented element. -/
def dumpArr (lvl : Nat) : JArr → List Nat
  | .nil => []
  | .cons h t => 44 :: 10 :: (pad lvl ++ dumpVal lvl h ++ dumpArr lvl t)
/-- Second and later object members: separator plus indented member. -/
def dumpObj (lvl : Nat) : JObj → List Nat
  | .nil => []
  | .cons k v t =>
    44 :: 10 :: (pad lvl ++ 34 :: (escStr k ++ 34 :: 58 :: 32 :: dumpVal lvl v)
      ++ dumpObj lvl t)
end

/-- JSON whitespace skipping (space, tab, newline, carriage return). -/
def skipWs : List Nat → List Nat
  | [] => []
  | c :: cs => if c == 32 || c == 9 || c == 10 || c == 13 then skipWs cs else c :: cs

/-- Value of one hex digit character. -/
def unhexDig (c : Nat) : Option Nat :=
  if 48 ≤ c ∧ c ≤ 57 then some (c - 48)
  else if 97 ≤ c ∧ c ≤ 102 then some (c - 87)
  else if 65 ≤ c ∧ c ≤ 70 then some (c - 55)
  else none

/-- Value of four hex digit characters, when all four are hex digits. -/
def hex4val (a b c2 d : Nat) : Option Nat :=
  match unhexDig a, unhexDig b, unhexDig c2, unhexDig d with
  | some va, some vb, some vc, some vd => some (((va * 16 + vb) * 16 + vc) * 16 + vd)
  | _, _, _, _ => none

/-- Continuation of a `\uXXXX` escape whose digits decoded to `v?`: a high
surrogate value pairs with a directly following low surrogate escape into one
code point; any other value (and an unpaired high surrogate) stands alone, as
in CPython.  Returns the decoded code point and the input after it. -/
def uniEsc (v? : Option Nat) (r : List Nat) : Option (Nat × List Nat) :=
  match v? with
  | none => none
  | some v =>
    if 55296 ≤ v ∧ v < 56320 then
      match r with
      | 92 :: 117 :: a2 :: b2 :: c3 :: d2 :: r2 =>
        match hex4val a2 b2 c3 d2 with
        | none => none
        | some w =>
          if 56320 ≤ w ∧ w < 57344 then
            some (65536 + (v - 55296) * 1024 + (w - 56320), r2)
          else some (v, r)
      | _ => some (v, r)
    else some (v, r)

/-- One string escape after the backslash: the eight two-character escapes,
or `\uXXXX` via `uniEsc`; anything else is rejected (CPython strict mode). -/
def readEsc : List Nat → Option (Nat × List Nat)
  | 34 :: r => some (34, r)
  | 92 :: r => some (92, r)
  | 47 :: r => some (47, r)
  | 98 :: r => some (8, r)
  | 102 :: r => some (12, r)
  | 110 :: r => some (10, r)
  | 114 :: r => some (13, r)
  | 116 :: r => some (9, r)
  | 117 :: a :: b :: c2 :: d :: r => uniEsc (hex4val a b c2 d) r
  | _ => none

/-- The strict CPython JSON string scanner, after the opening quote: a plain
quote ends the string; a backslash reads one escape; raw control characters
are rejected; any other code point stands for itself.  The fuel is only a
recursion bound: every step consumes one unit and at least one input
character, and the wrapper `parseStrTop` supplies more than the input length,
so the scanner itself never runs out. -/
def parseStrBody : Nat → List Nat → Option (List Nat × List Nat)
  | 0, _ => none
  | _ + 1, [] => none
  | fuel + 1, c :: rest =>
    if c = 34 then some ([], rest)
    else if c = 92 then
      match readEsc rest with
      | none => none
      | some (v, r) => (parseStrBody fuel r).map (fun p => (v :: p.1, p.2))
    else if c < 32 then none
    else (parseStrBody fuel rest).map (fun p => (c :: p.1, p.2))

/-- The string scanner with enough fuel for its input. -/
def parseStrTop (s : List Nat) : Option (List Nat × List Nat) :=
  parseStrBody (s.length + 1) s

/-- Leading run of decimal digit characters. -/
def digits : List Nat → List Nat × List Nat
  | [] => ([], [])
  | c :: cs =>
    if 48 ≤ c ∧ c ≤ 57 then
      let p := digits cs
      (c :: p.1, p.2)
    else ([], c :: cs)

/-- Integer part of the JSON number grammar: `0`, or a nonzero digit followed
by digits (no leading zeros). -/
def parseIntPart : List Nat → Option (List Nat × List Nat)
  | [] => none
  | c :: cs =>
    if c = 48 then some ([48], cs)
    else if 49 ≤ c ∧ c ≤ 57 then
      let p := digits cs
      some (c :: p.1, p.2)
    else none

/-- Optional fraction: a dot followed by at least one digit, else nothing. -/
def parseFrac : List Nat → List Nat × List Nat
  | 46 :: c :: cs =>
    if 48 ≤ c ∧ c ≤ 57 then
      let p := digits (c :: cs)
      (46 :: p.1, p.2)
    else ([], 46 :: c :: cs)
  | cs => ([], cs)

/-- Optional exponent: `e` or `E`, optional sign, at least one digit. -/
def parseExp : List Nat → List Nat × List Nat
  | [] => ([], [])
  | e :: rest =>
    if e = 101 ∨ e = 69 then
      match rest with
      | [] => ([], [e])
      | [s] => if 48 ≤ s ∧ s ≤ 57 then ([e, s], []) else ([], [e, s])
      | s :: c :: cs =>
        if (s = 43 ∨ s = 45) ∧ 48 ≤ c ∧ c ≤ 57 then
          let p := digits (c :: cs)
          (e :: s :: p.1, p.2)
        else if 48 ≤ s ∧ s ≤ 57 then
          let p := digits (s :: c :: cs)
          (e :: p.1, p.2)
        else ([], e :: s :: c :: cs)
    else ([], e :: rest)

/-- The JSON number lexeme at the head of the input
(`-?(0|[1-9][0-9]*)(.[0-9]+)?([eE][+-]?[0-9]+)?`), kept as raw text. -/
def parseNumLex : List Nat → Option (List Nat × List Nat)
  | 45 :: cs =>
    match parseIntPart cs with
    | some (ip, r1) =>
      let f := parseFrac r1
      let e := parseExp f.2
      some (45 :: (ip ++ f.1 ++ e.1), e.2)
    | none => none
  | cs =>
    match parseIntPart cs with
    | some (ip, r1) =>
      let f := parseFrac r1
      let e := parseExp f.2
      some (ip ++ f.1 ++ e.1, e.2)
    | none => none

mutual
/-- The CPython JSON value scanner, on fuel (one unit per nesting level and
per container item; the top level supplies more than the input length, which
a scanner consuming at least one character per step can never exhaust). -/
def parseVal : Nat → List Nat → Option (Json × List Nat)
  | 0, _ => none
  | fuel + 1, input =>
    match skipWs input with
    | 110 :: 117 :: 108 :: 108 :: rest => some (.null, rest)
    | 116 :: 114 :: 117 :: 101 :: rest => some (.bool true, rest)
    | 102 :: 97 :: 108 :: 115 :: 101 :: rest => some (.bool false, rest)
    | 78 :: 97 :: 78 :: rest => some (.num [78, 97, 78], rest)
    | 73 :: 110 :: 102 :: 105 :: 110 :: 105 :: 116 :: 121 :: rest =>
      some (.num [73, 110, 102, 105, 110, 105, 116, 121], rest)
    | 45 :: 73 :: 110 :: 102 :: 105 :: 110 :: 105 :: 116 :: 121 :: rest =>
      some (.num [45, 73, 110, 102, 105, 110, 105, 116, 121], rest)
    | 34 :: rest => (parseStrTop rest).map (fun p => (Json.str p.1, p.2))
    | 91 :: rest =>
      match skipWs rest with
      | 93 :: r2 => some (.arr .nil, r2)
      | r2 => (parseElems fuel r2).map (fun p => (Json.arr p.1, p.2))
    | 123 :: rest =>
      match skipWs rest with
      | 125 :: r2 => some (.obj .nil, r2)
      | r2 => (parseMembers fuel r2).map (fun p => (Json.obj p.1, p.2))
    | c :: rest =>
      if c = 45 ∨ (48 ≤ c ∧ c ≤ 57) then
        (parseNumLex (c :: rest)).map (fun p => (Json.num p.1, p.2))
      else none
    | [] => none
/-- One-or-more comma-separated array elements, ending at the bracket. -/
def parseElems : Nat → List Nat → Option (JArr × List Nat)
  | 0, _ => none
  | fuel + 1, input =>
    (parseVal fuel input).bind fun vr =>
      match skipWs vr.2 with
      | 44 :: r2 => (parseElems fuel (skipWs r2)).map (fun p => (JArr.cons vr.1 p.1, p.2))
      | 93 :: r2 => some (.cons vr.1 .nil, r2)
      | _ => none
/-- One-or-more comma-separated object members, ending at the brace. -/
def parseMembers : Nat → List Nat → Option (JObj × List Nat)
  | 0, _ => none
  | fuel + 1, input =>
    match input with
    | 34 :: r0 =>
      (parseStrTop r0).bind fun kr =>
        match skipWs kr.2 with
        | 58 :: r2 =>
          (parseVal fuel r2).bind fun vr =>
            match skipWs vr.2 with
            | 44 :: r4 =>
              (parseMembers fuel (skipWs r4)).map (fun p => (JObj.cons kr.1 vr.1 p.1, p.2))
            | 125 :: r4 => some (.cons kr.1 vr.1 .nil, r4)
            | _ => none
        | _ => none
    | _ => none
end

/-- `json.load` on the whole file content: leading whitespace, one value,
then only whitespace to the end; anything else raises `JSONDecodeError`,
modelled as `none`. -/
def parseJson (s : List Nat) : Option Json :=
  match parseVal (s.length + 1) s with
  | some (j, rest) => if (skipWs rest).isEmpty then some j else none
  | none => none

/-- The durable store: either no file at `TASKS_FILE`, or a file with the
given decoded text content. -/
inductive Store where
  | missing
  | file (content : List Nat)
deriving DecidableEq

/-- `load_tasks`: returns the parsed JSON value of the store when it exists
and decodes, and the empty list on a missing file or a `JSONDecodeError`.
Note it is total (never raises) and does not check that the decoded value is
a list of task records. -/
def load_tasks : Store → Json
  | .missing => .arr .nil
  | .file s =>
    match parseJson s with
    | some j => j
    | none => .arr .nil

/-- `save_tasks`: overwrites the store with `json.dump(tasks, file, indent=4)`. -/
def save_tasks (j : Json) : Store := .file (dumpVal 0 j)

/-- A task record as serialized: the four fields as raw strings (the store
itself carries no enumerations), with an optional due date. -/
structure RawTask where
  description : List Nat
  due_date : Option (List Nat)
  status : List Nat
  priority : List Nat
deriving DecidableEq

/-- Key "description". -/
def descKey : List Nat := [100, 101, 115, 99, 114, 105, 112, 116, 105, 111, 110]

/-- Key "due_date". -/
def dueKey : List Nat := [100, 117, 101, 95, 100, 97, 116, 101]

/-- Key "status". -/
def statusKey : List Nat := [115, 116, 97, 116, 117, 115]

/-- Key "priority". -/
def priorityKey : List Nat := [112, 114, 105, 111, 114, 105, 116, 121]

/-- The JSON object of one task record, fields in the order `add_task`
builds them. -/
def rawTaskJson (p : RawTask) : Json :=
  .obj (.cons descKey (.str p.description)
    (.cons dueKey (match p.due_date with | none => .null | some s => .str s)
      (.cons statusKey (.str p.status)
        (.cons priorityKey (.str p.priority) .nil))))

/-- The JSON array elements of a task collection. -/
def rawTasksArr : List RawTask → JArr
  | [] => .nil
  | p :: ps => .cons (rawTaskJson p) (rawTasksArr ps)

/-- The JSON value of a whole task collection. -/
def rawTasksJson (ps : List RawTask) : Json := .arr (rawTasksArr ps)

/-- A code point Python can write to the UTF-8 store: a Unicode scalar value
(not a surrogate, below 0x110000).  A collection containing anything else
makes `save_tasks` itself raise `UnicodeEncodeError` in Python. -/
def wfCodeB (c : Nat) : Bool :=
  decide (c < 55296) || (decide (57344 ≤ c) && decide (c < 1114112))

/-- All code points of a string writable. -/
def wfStrB (s : List Nat) : Bool := s.all wfCodeB

/-- Writable optional string. -/
def wfDueB : Option (List Nat) → Bool
  | none => true
  | some s => wfStrB s

/-- Writable task record. -/
def wfRawTaskB (p : RawTask) : Bool :=
  wfStrB p.description && wfDueB p.due_date && wfStrB p.status && wfStrB p.priority

/-- Writable task collection. -/
def wfRawTasksB (ps : List RawTask) : Bool := ps.all wfRawTaskB

/-- Helper: a hex digit character decodes back to its value. -/
theorem unhex_hexDig : ∀ n, n < 16 → unhexDig (hexDig n) = some n := by decide

/-- Helper: the four hex digits of a value below 0x10000 decode back to it. -/
theorem hex4val_hex4 (n : Nat) (h : n < 65536) :
    hex4val (hexDig (n / 4096 % 16)) (hexDig (n / 256 % 16))
      (hexDig (n / 16 % 16)) (hexDig (n % 16)) = some n := by
  simp only [hex4val, unhex_hexDig _ (Nat.mod_lt _ (show 0 < 16 by omega))]
  exact congrArg some (by omega)

/-- Helper: the scanner on a backslash reads one escape. -/
theorem parseStrBody_slash (f : Nat) (rest : List Nat) :
    parseStrBody (f + 1) (92 :: rest)
      = match readEsc rest with
        | none => none
        | some (v, r) => (parseStrBody f r).map (fun p => (v :: p.1, p.2)) := rfl

/-- Helper: a `\u` escape hands its four digits to `uniEsc`. -/
theorem readEsc_u (a b c2 d : Nat) (r : List Nat) :
    readEsc (117 :: a :: b :: c2 :: d :: r) = uniEsc (hex4val a b c2 d) r := rfl

/-- Helper: a `\uXXXX` escape of a value that is not a high surrogate stands
for that value. -/
theorem parseStrBody_u_single (f n : Nat) (rest : List Nat) (hn : n < 65536)
    (hns : ¬ (55296 ≤ n ∧ n < 56320)) :
    parseStrBody (f + 1) (92 :: 117 :: hexDig (n / 4096 % 16) :: hexDig (n / 256 % 16)
        :: hexDig (n / 16 % 16) :: hexDig (n % 16) :: rest)
      = (parseStrBody f rest).map (fun p => (n :: p.1, p.2)) := by
  rw [parseStrBody_slash, readEsc_u, hex4val_hex4 n hn]
  have hue : uniEsc (some n) rest = some (n, rest) := by
    simp only [uniEsc]
    rw [if_neg hns]
  rw [hue]

/-- Helper: `uniEsc` on a high surrogate looks at a following escape. -/
theorem uniEsc_pair (v a2 b2 c3 d2 : Nat) (r2 : List Nat)
    (hv : 55296 ≤ v ∧ v < 56320) :
    uniEsc (some v) (92 :: 117 :: a2 :: b2 :: c3 :: d2 :: r2)
      = match hex4val a2 b2 c3 d2 with
        | none => none
        | some w =>
          if 56320 ≤ w ∧ w < 57344 then
            some (65536 + (v - 55296) * 1024 + (w - 56320), r2)
          else some (v, 92 :: 117 :: a2 :: b2 :: c3 :: d2 :: r2) := by
  simp only [uniEsc]
  rw [if_pos hv]

/-- Helper: a high surrogate escape followed by a low surrogate escape
combines into one code point. -/
theorem uniEsc_pair_low (v a2 b2 c3 d2 w : Nat) (r2 : List Nat)
    (hv : 55296 ≤ v ∧ v < 56320) (hw : hex4val a2 b2 c3 d2 = some w)
    (hlow : 56320 ≤ w ∧ w < 57344) :
    uniEsc (some v) (92 :: 117 :: a2 :: b2 :: c3 :: d2 :: r2)
      = some (65536 + (v - 55296) * 1024 + (w - 56320), r2) := by
  rw [uniEsc_pair v a2 b2 c3 d2 r2 hv, hw]
  show (if 56320 ≤ w ∧ w < 57344 then some (65536 + (v - 55296) * 1024 + (w - 56320), r2)
    else some (v, 92 :: 117 :: a2 :: b2 :: c3 :: d2 :: r2))
    = some (65536 + (v - 55296) * 1024 + (w - 56320), r2)
  rw [if_pos hlow]

/-- Helper: a plain printable ASCII character scans as itself. -/
theorem parseStrBody_plain (f c : Nat) (rest : List Nat) (h34 : c ≠ 34)
    (h92 : c ≠ 92) (hge : 32 ≤ c) :
    parseStrBody (f + 1) (c :: rest)
      = (parseStrBody f rest).map (fun p => (c :: p.1, p.2)) := by
  show (if c = 34 then some ([], rest)
    else if c = 92 then
      match readEsc rest with
      | none => none
      | some (v, r) => (parseStrBody f r).map (fun p => (v :: p.1, p.2))
    else if c < 32 then none
    else (parseStrBody f rest).map (fun p => (c :: p.1, p.2))) = _
  rw [if_neg h34, if_neg h92, if_neg (by omega)]

/-- Helper: the surrogate-pair escape of a supplementary code point scans
back to it. -/
theorem parseStrBody_escChar_sup (f c : Nat) (rest : List Nat)
    (hbig : 65536 ≤ c) (hmax : c < 1114112) :
    parseStrBody (f + 1) (escChar c ++ rest)
      = (parseStrBody f rest).map (fun p => (c :: p.1, p.2)) := by
  have hesc : escChar c ++ rest
      = 92 :: 117 :: hexDig ((55296 + (c - 65536) / 1024) / 4096 % 16)
          :: hexDig ((55296 + (c - 65536) / 1024) / 256 % 16)
          :: hexDig ((55296 + (c - 65536) / 1024) / 16 % 16)
          :: hexDig ((55296 + (c - 65536) / 1024) % 16)
          :: 92 :: 117 :: hexDig ((56320 + (c - 65536) % 1024) / 4096 % 16)
          :: hexDig ((56320 + (c - 65536) % 1024) / 256 % 16)
          :: hexDig ((56320 + (c - 65536) % 1024) / 16 % 16)
          :: hexDig ((56320 + (c - 65536) % 1024) % 16) :: rest := by
    simp [escChar, show c ≠ 34 by omega, show c ≠ 92 by omega, show c ≠ 8 by omega,
      show c ≠ 9 by omega, show c ≠ 10 by omega, show c ≠ 12 by omega,
      show c ≠ 13 by omega, show ¬ c < 32 by omega, show ¬ c < 127 by omega,
      show ¬ c < 65536 by omega, hex4]
  rw [hesc, parseStrBody_slash, readEsc_u, hex4val_hex4 _ (by omega),
    uniEsc_pair_low _ _ _ _ _ _ _ (by omega) (hex4val_hex4 _ (by omega)) (by omega)]
  have harith : 65536 + (55296 + (c - 65536) / 1024 - 55296) * 1024
      + (56320 + (c - 65536) % 1024 - 56320) = c := by omega
  rw [harith]

/-- Helper: the scanner undoes the escaping of one writable code point,
consuming exactly one unit of fuel. -/
theorem parseStrBody_escChar (f c : Nat) (rest : List Nat) (hc : wfCodeB c = true) :
    parseStrBody (f + 1) (escChar c ++ rest)
      = (parseStrBody f rest).map (fun p => (c :: p.1, p.2)) := by
  have hwf : c < 55296 ∨ (57344 ≤ c ∧ c < 1114112) := by
    simp only [wfCodeB, Bool.or_eq_true, Bool.and_eq_true, decide_eq_true_eq] at hc
    tauto
  by_cases h34 : c = 34
  · subst h34; rfl
  by_cases h92 : c = 92
  · subst h92; rfl
  by_cases h8 : c = 8
  · subst h8; rfl
  by_cases h9 : c = 9
  · subst h9; rfl
  by_cases h10 : c = 10
  · subst h10; rfl
  by_cases h12 : c = 12
  · subst h12; rfl
  by_cases h13 : c = 13
  · subst h13; rfl
  by_cases hlt32 : c < 32
  · have hesc : escChar c ++ rest
        = 92 :: 117 :: hexDig (c / 4096 % 16) :: hexDig (c / 256 % 16)
            :: hexDig (c / 16 % 16) :: hexDig (c % 16) :: rest := by
      simp [escChar, h34, h92, h8, h9, h10, h12, h13, hlt32, hex4]
    rw [hesc, parseStrBody_u_single f c rest (by omega) (by omega)]
  by_cases hlt127 : c < 127
  · have hesc : escChar c ++ rest = c :: rest := by
      simp [escChar, h34, h92, h8, h9, h10, h12, h13, hlt32, hlt127]
    rw [hesc, parseStrBody_plain f c rest h34 h92 (by omega)]
  by_cases hbmp : c < 65536
  · have hesc : escChar c ++ rest
        = 92 :: 117 :: hexDig (c / 4096 % 16) :: hexDig (c / 256 % 16)
            :: hexDig (c / 16 % 16) :: hexDig (c % 16) :: rest := by
      simp [escChar, h34, h92, h8, h9, h10, h12, h13, hlt32, hlt127, hbmp, hex4]
    rw [hesc, parseStrBody_u_single f c rest (by omega) (by omega)]
  · exact parseStrBody_escChar_sup f c rest (by omega) (by omega)

mutual
/-- JSON values within the scope of the round-trip statement: no numeric
literals (the program never writes one; a float would in general be
re-formatted on output) and only writable strings. -/
def wfJson : Json → Bool
  | .null => true
  | .bool _ => true
  | .num _ => false
  | .str s => wfStrB s
  | .arr xs => wfJArr xs
  | .obj ms => wfJObj ms
/-- All elements well-formed. -/
def wfJArr : JArr → Bool
  | .nil => true
  | .cons h t => wfJson h && wfJArr t
/-- All keys and values well-formed. -/
def wfJObj : JObj → Bool
  | .nil => true
  | .cons k v t => wfStrB k && wfJson v && wfJObj t
end

/-- Helper: escaping one code point writes at least one character. -/
theorem escChar_length_pos (c : Nat) : 1 ≤ (escChar c).length := by
  simp only [escChar]
  repeat' split
  all_goals simp [hex4]

/-- Helper: escaping cannot shorten a string. -/
theorem escStr_length (s : List Nat) : s.length ≤ (escStr s).length := by
  induction s with
  | nil => simp [escStr]
  | cons c cs ih =>
    have := escChar_length_pos c
    simp only [escStr, List.length_append, List.length_cons]
    omega

/-- Helper: the scanner undoes the escaping of a writable string, given fuel
beyond the string length. -/
theorem parseStrBody_escStr :
    ∀ (s : List Nat) (f : Nat) (rest : List Nat), wfStrB s = true → s.length < f →
      parseStrBody f (escStr s ++ 34 :: rest) = some (s, rest) := by
  intro s
  induction s with
  | nil =>
    intro f rest _ hf
    obtain ⟨f', rfl⟩ : ∃ f', f = f' + 1 := ⟨f - 1, by omega⟩
    rfl
  | cons c cs ih =>
    intro f rest hwf hf
    obtain ⟨f', rfl⟩ : ∃ f', f = f' + 1 := ⟨f - 1, by omega⟩
    have hwc : wfCodeB c = true ∧ wfStrB cs = true := by
      simpa [wfStrB, Bool.and_eq_true] using hwf
    have hlt : cs.length < f' := by
      simp only [List.length_cons] at hf
      omega
    rw [show escStr (c :: cs) ++ 34 :: rest = escChar c ++ (escStr cs ++ 34 :: rest) from by
      simp [escStr, List.append_assoc]]
    rw [parseStrBody_escChar f' c _ hwc.1, ih f' rest hwc.2 hlt]
    rfl

/-- Helper: the wrapped scanner undoes the escaping of a writable string. -/
theorem parseStrTop_esc (s rest : List Nat) (hwf : wfStrB s = true) :
    parseStrTop (escStr s ++ 34 :: rest) = some (s, rest) := by
  rw [parseStrTop]
  apply parseStrBody_escStr s _ rest hwf
  have := escStr_length s
  simp only [List.length_append, List.length_cons]
  omega

/-- Helper: whitespace skipping passes an indentation prefix. -/
theorem skipWs_replicate (x : List Nat) :
    ∀ k, skipWs (List.replicate k 32 ++ x) = skipWs x := by
  intro k
  induction k with
  | zero => rfl
  | succ k ih => rw [List.replicate_succ, List.cons_append, show
      skipWs (32 :: (List.replicate k 32 ++ x)) = skipWs (List.replicate k 32 ++ x) from rfl, ih]

/-- Helper: whitespace skipping passes a `pad`. -/
theorem skipWs_pad (n : Nat) (x : List Nat) : skipWs (pad n ++ x) = skipWs x :=
  skipWs_replicate x (4 * n)

/-- Helper: whitespace skipping passes a newline. -/
theorem skipWs_nl (x : List Nat) : skipWs (10 :: x) = skipWs x := rfl

/-- Helper: whitespace skipping stops at a non-whitespace head. -/
theorem skipWs_nonws (c : Nat) (x : List Nat)
    (h : (c == 32 || c == 9 || c == 10 || c == 13) = false) :
    skipWs (c :: x) = c :: x := by
  simp only [skipWs, h]
  rw [if_neg (by simp)]

/-- Helper: printed values begin with a distinctive non-whitespace character:
never a closer or a separator. -/
theorem dump_head (lvl : Nat) (j : Json) (hwf : wfJson j = true) :
    ∃ c tl, dumpVal lvl j = c :: tl
      ∧ (c == 32 || c == 9 || c == 10 || c == 13) = false
      ∧ c ≠ 93 ∧ c ≠ 125 ∧ c ≠ 44 := by
  cases j with
  | null => exact ⟨110, _, rfl, by decide, by decide, by decide, by decide⟩
  | bool b =>
    cases b with
    | false => exact ⟨102, _, rfl, by decide, by decide, by decide, by decide⟩
    | true => exact ⟨116, _, rfl, by decide, by decide, by decide, by decide⟩
  | num lex => simp [wfJson] at hwf
  | str s => exact ⟨34, _, rfl, by decide, by decide, by decide, by decide⟩
  | arr xs =>
    cases xs with
    | nil => exact ⟨91, _, rfl, by decide, by decide, by decide, by decide⟩
    | cons h t => exact ⟨91, _, rfl, by decide, by decide, by decide, by decide⟩
  | obj ms =>
    cases ms with
    | nil => exact ⟨123, _, rfl, by decide, by decide, by decide, by decide⟩
    | cons k v t => exact ⟨123, _, rfl, by decide, by decide, by decide, by decide⟩

/-- Helper: whitespace skipping stops at a printed value. -/
theorem skipWs_dump (lvl : Nat) (j : Json) (hwf : wfJson j = true) (x : List Nat) :
    skipWs (dumpVal lvl j ++ x) = dumpVal lvl j ++ x := by
  obtain ⟨c, tl, hd, hws, -, -, -⟩ := dump_head lvl j hwf
  rw [hd, List.cons_append, skipWs_nonws c _ hws, ← List.cons_append]

/-- Helper: a printed value is never empty. -/
theorem dump_length_pos (lvl : Nat) (j : Json) (hwf : wfJson j = true) :
    1 ≤ (dumpVal lvl j).length := by
  obtain ⟨c, tl, hd, -⟩ := dump_head lvl j hwf
  rw [hd]
  simp

/-- Helper: the scanner step on `null`. -/
theorem parseVal_null_t (f : Nat) (rest : List Nat) :
    parseVal (f + 1) (110 :: 117 :: 108 :: 108 :: rest) = some (.null, rest) := rfl

/-- Helper: the scanner step on `true`. -/
theorem parseVal_true_t (f : Nat) (rest : List Nat) :
    parseVal (f + 1) (116 :: 114 :: 117 :: 101 :: rest) = some (.bool true, rest) := rfl

/-- Helper: the scanner step on `false`. -/
theorem parseVal_false_t (f : Nat) (rest : List Nat) :
    parseVal (f + 1) (102 :: 97 :: 108 :: 115 :: 101 :: rest) = some (.bool false, rest) := rfl

/-- Helper: the scanner step on a string opener. -/
theorem parseVal_str_t (f : Nat) (body : List Nat) :
    parseVal (f + 1) (34 :: body)
      = (parseStrTop body).map (fun p => (Json.str p.1, p.2)) := rfl

/-- Helper: the scanner step on an array opener. -/
theorem parseVal_arr_t (f : Nat) (w : List Nat) :
    parseVal (f + 1) (91 :: w)
      = (match skipWs w with
         | 93 :: r2 => some (Json.arr .nil, r2)
         | r2 => (parseElems f r2).map (fun p => (Json.arr p.1, p.2))) := rfl

/-- Helper: the scanner step on an object opener. -/
theorem parseVal_obj_t (f : Nat) (w : List Nat) :
    parseVal (f + 1) (123 :: w)
      = (match skipWs w with
         | 125 :: r2 => some (Json.obj .nil, r2)
         | r2 => (parseMembers f r2).map (fun p => (Json.obj p.1, p.2))) := rfl

/-- Helper: the element scanner unfolded one step. -/
theorem parseElems_t (f : Nat) (input : List Nat) :
    parseElems (f + 1) input
      = (parseVal f input).bind fun vr =>
          match skipWs vr.2 with
          | 44 :: r2 => (parseElems f (skipWs r2)).map (fun p => (JArr.cons vr.1 p.1, p.2))
          | 93 :: r2 => some (.cons vr.1 .nil, r2)
          | _ => none := rfl

/-- Helper: the member scanner unfolded one step on a key opener. -/
theorem parseMembers_t (f : Nat) (r0 : List Nat) :
    parseMembers (f + 1) (34 :: r0)
      = (parseStrTop r0).bind fun kr =>
          match skipWs kr.2 with
          | 58 :: r2 =>
            (parseVal f r2).bind fun vr =>
              match skipWs vr.2 with
              | 44 :: r4 =>
                (parseMembers f (skipWs r4)).map (fun p => (JObj.cons kr.1 vr.1 p.1, p.2))
              | 125 :: r4 => some (.cons kr.1 vr.1 .nil, r4)
              | _ => none
          | _ => none := rfl

/-- Helper: `pad` length. -/
theorem length_pad (n : Nat) : (pad n).length = 4 * n := by simp [pad]

/-- Helper: the whitespace handling of the scanner is insensitive to one
leading space (the one printed after a colon). -/
theorem parseVal_sp (g : Nat) (y : List Nat) : parseVal g (32 :: y) = parseVal g y := by
  cases g with
  | zero => rfl
  | succ g => rfl

/-- The round-trip core, by induction on fuel: with fuel at least the printed
length, the scanner undoes the printer, for whole values, for element chains
in an array, and for member chains in an object. -/
theorem dump_parse : ∀ fuel : Nat,
    (∀ (j : Json) (lvl : Nat) (rest : List Nat), wfJson j = true →
      (dumpVal lvl j).length ≤ fuel →
      parseVal fuel (dumpVal lvl j ++ rest) = some (j, rest))
    ∧ (∀ (h : Json) (t : JArr) (eL cL : Nat) (rest : List Nat),
      wfJson h = true → wfJArr t = true →
      (dumpVal eL h).length + (dumpArr eL t).length + 2 ≤ fuel →
      parseElems fuel (dumpVal eL h ++ (dumpArr eL t ++ (10 :: (pad cL ++ (93 :: rest)))))
        = some (JArr.cons h t, rest))
    ∧ (∀ (k : List Nat) (v : Json) (t : JObj) (mL cL : Nat) (rest : List Nat),
      wfStrB k = true → wfJson v = true → wfJObj t = true →
      (dumpVal mL v).length + (dumpObj mL t).length + 2 ≤ fuel →
      parseMembers fuel
          (34 :: (escStr k ++ (34 :: (58 :: (32 :: (dumpVal mL v
            ++ (dumpObj mL t ++ (10 :: (pad cL ++ (125 :: rest))))))))))
        = some (JObj.cons k v t, rest)) := by
  intro fuel
  induction fuel with
  | zero =>
    refine ⟨?_, ?_, ?_⟩
    · intro j lvl rest hwf hlen
      have := dump_length_pos lvl j hwf
      omega
    · intro h t eL cL rest _ _ hlen
      omega
    · intro k v t mL cL rest _ _ _ hlen
      omega
  | succ f ih =>
    obtain ⟨ih1, ih2, ih3⟩ := ih
    refine ⟨?_, ?_, ?_⟩
    · intro j lvl rest hwf hlen
      cases j with
      | null => exact parseVal_null_t f rest
      | bool b =>
        cases b with
        | false => exact parseVal_false_t f rest
        | true => exact parseVal_true_t f rest
      | num lex => simp [wfJson] at hwf
      | str s =>
        have hs : wfStrB s = true := by simpa [wfJson] using hwf
        have e1 : dumpVal lvl (.str s) ++ rest = 34 :: (escStr s ++ 34 :: rest) := by
          simp [dumpVal, List.append_assoc]
        rw [e1, parseVal_str_t, parseStrTop_esc s rest hs]
        rfl
      | arr xs =>
        cases xs with
        | nil => exact (show parseVal (f + 1) (91 :: 93 :: rest) = some (.arr .nil, rest) from rfl)
        | cons h t =>
          have hwa : wfJson h = true ∧ wfJArr t = true := by
            simpa [wfJson, wfJArr, Bool.and_eq_true] using hwf
          have e1 : dumpVal lvl (.arr (.cons h t)) ++ rest
              = 91 :: (10 :: (pad (lvl + 1) ++ (dumpVal (lvl + 1) h ++ (dumpArr (lvl + 1) t
                ++ (10 :: (pad lvl ++ (93 :: rest))))))) := by
            simp [dumpVal, List.append_assoc]
          rw [e1, parseVal_arr_t]
          have e2 : skipWs (10 :: (pad (lvl + 1) ++ (dumpVal (lvl + 1) h ++ (dumpArr (lvl + 1) t
              ++ (10 :: (pad lvl ++ (93 :: rest)))))))
              = dumpVal (lvl + 1) h ++ (dumpArr (lvl + 1) t ++ (10 :: (pad lvl ++ (93 :: rest)))) := by
            rw [skipWs_nl, skipWs_pad, skipWs_dump _ _ hwa.1]
          rw [e2]
          obtain ⟨c, tl, hd, hws, h93, h125, h44⟩ := dump_head (lvl + 1) h hwa.1
          rw [hd, List.cons_append]
          split
          · rename_i r2 heq
            injection heq with hc htl
            omega
          · rw [← List.cons_append, ← hd,
              ih2 h t (lvl + 1) lvl rest hwa.1 hwa.2 (by
                simp only [dumpVal, List.length_cons, List.length_append, length_pad] at hlen
                omega)]
            rfl
      | obj ms =>
        cases ms with
        | nil => exact (show parseVal (f + 1) (123 :: 125 :: rest) = some (.obj .nil, rest) from rfl)
        | cons k v t =>
          have hwo : wfStrB k = true ∧ wfJson v = true ∧ wfJObj t = true := by
            simpa [wfJson, wfJObj, Bool.and_eq_true, and_assoc] using hwf
          have e1 : dumpVal lvl (.obj (.cons k v t)) ++ rest
              = 123 :: (10 :: (pad (lvl + 1) ++ (34 :: (escStr k ++ (34 :: (58 :: (32
                :: (dumpVal (lvl + 1) v ++ (dumpObj (lvl + 1) t
                  ++ (10 :: (pad lvl ++ (125 :: rest)))))))))))) := by
            simp [dumpVal, List.append_assoc]
          rw [e1, parseVal_obj_t]
          have e2 : skipWs (10 :: (pad (lvl + 1) ++ (34 :: (escStr k ++ (34 :: (58 :: (32
              :: (dumpVal (lvl + 1) v ++ (dumpObj (lvl + 1) t
                ++ (10 :: (pad lvl ++ (125 :: rest))))))))))))
              = 34 :: (escStr k ++ (34 :: (58 :: (32 :: (dumpVal (lvl + 1) v
                ++ (dumpObj (lvl + 1) t ++ (10 :: (pad lvl ++ (125 :: rest))))))))) := by
            rw [skipWs_nl, skipWs_pad, skipWs_nonws 34 _ (by decide)]
          rw [e2]
          split
          · rename_i r2 heq
            injection heq with hc htl
            omega
          · rw [ih3 k v t (lvl + 1) lvl rest hwo.1 hwo.2.1 hwo.2.2 (by
              simp only [dumpVal, List.length_cons, List.length_append, length_pad] at hlen
              omega)]
            rfl
    · intro h t eL cL rest hwfh hwft hlen
      rw [parseElems_t,
        ih1 h eL (dumpArr eL t ++ (10 :: (pad cL ++ (93 :: rest)))) hwfh (by omega)]
      simp only [Option.some_bind]
      cases t with
      | nil =>
        have e3 : dumpArr eL JArr.nil ++ (10 :: (pad cL ++ (93 :: rest)))
            = 10 :: (pad cL ++ (93 :: rest)) := by
          simp [dumpArr]
        rw [e3, skipWs_nl, skipWs_pad, skipWs_nonws 93 _ (by decide)]
      | cons h2 t2 =>
        have hwa2 : wfJson h2 = true ∧ wfJArr t2 = true := by
          simpa [wfJArr, Bool.and_eq_true] using hwft
        have e3 : dumpArr eL (.cons h2 t2) ++ (10 :: (pad cL ++ (93 :: rest)))
            = 44 :: (10 :: (pad eL ++ (dumpVal eL h2 ++ (dumpArr eL t2
              ++ (10 :: (pad cL ++ (93 :: rest))))))) := by
          simp [dumpArr, List.append_assoc]
        rw [e3, skipWs_nonws 44 _ (by decide)]
        simp only []
        have e4 : skipWs (10 :: (pad eL ++ (dumpVal eL h2 ++ (dumpArr eL t2
            ++ (10 :: (pad cL ++ (93 :: rest)))))))
            = dumpVal eL h2 ++ (dumpArr eL t2 ++ (10 :: (pad cL ++ (93 :: rest)))) := by
          rw [skipWs_nl, skipWs_pad, skipWs_dump _ _ hwa2.1]
        have hlen2 : (dumpVal eL h2).length + (dumpArr eL t2).length + 2 ≤ f := by
          have hp := dump_length_pos eL h hwfh
          simp only [dumpArr, List.length_cons, List.length_append, length_pad] at hlen
          omega
        rw [e4, ih2 h2 t2 eL cL rest hwa2.1 hwa2.2 hlen2]
        rfl
    · intro k v t mL cL rest hwfk hwfv hwft hlen
      rw [parseMembers_t, parseStrTop_esc k _ hwfk]
      simp only [Option.some_bind]
      rw [skipWs_nonws 58 _ (by decide)]
      simp only []
      rw [parseVal_sp, ih1 v mL _ hwfv (by omega)]
      simp only [Option.some_bind]
      cases t with
      | nil =>
        have e3 : dumpObj mL JObj.nil ++ (10 :: (pad cL ++ (125 :: rest)))
            = 10 :: (pad cL ++ (125 :: rest)) := by
          simp [dumpObj]
        rw [e3, skipWs_nl, skipWs_pad, skipWs_nonws 125 _ (by decide)]
      | cons k2 v2 t2 =>
        have hwo2 : wfStrB k2 = true ∧ wfJson v2 = true ∧ wfJObj t2 = true := by
          simpa [wfJObj, Bool.and_eq_true, and_assoc] using hwft
        have e3 : dumpObj mL (.cons k2 v2 t2) ++ (10 :: (pad cL ++ (125 :: rest)))
            = 44 :: (10 :: (pad mL ++ (34 :: (escStr k2 ++ (34 :: (58 :: (32
              :: (dumpVal mL v2 ++ (dumpObj mL t2 ++ (10 :: (pad cL ++ (125 :: rest)))))))))))) := by
          simp [dumpObj, List.append_assoc]
        rw [e3, skipWs_nonws 44 _ (by decide)]
        simp only []
        have e4 : skipWs (10 :: (pad mL ++ (34 :: (escStr k2 ++ (34 :: (58 :: (32
            :: (dumpVal mL v2 ++ (dumpObj mL t2 ++ (10 :: (pad cL ++ (125 :: rest))))))))))))
            = 34 :: (escStr k2 ++ (34 :: (58 :: (32 :: (dumpVal mL v2
              ++ (dumpObj mL t2 ++ (10 :: (pad cL ++ (125 :: rest))))))))) := by
          rw [skipWs_nl, skipWs_pad, skipWs_nonws 34 _ (by decide)]
        have hlen2 : (dumpVal mL v2).length + (dumpObj mL t2).length + 2 ≤ f := by
          have hp := dump_length_pos mL v hwfv
          simp only [dumpObj, List.length_cons, List.length_append, length_pad] at hlen
          omega
        rw [e4, ih3 k2 v2 t2 mL cL rest hwo2.1 hwo2.2.1 hwo2.2.2 hlen2]
        rfl

/-- Helper: `json.load` undoes `json.dump(indent=4)` on any well-formed
value. -/
theorem parseJson_dump (j : Json) (hwf : wfJson j = true) :
    parseJson (dumpVal 0 j) = some j := by
  rw [parseJson]
  have h1 : parseVal ((dumpVal 0 j).length + 1) (dumpVal 0 j) = some (j, []) := by
    have h := (dump_parse ((dumpVal 0 j).length + 1)).1 j 0 [] hwf (by omega)
    simpa using h
  rw [h1]
  rfl

/-- Helper: a writable task record encodes to a well-formed JSON object. -/
theorem wfJson_rawTaskJson (p : RawTask) (h : wfRawTaskB p = true) :
    wfJson (rawTaskJson p) = true := by
  simp only [wfRawTaskB, Bool.and_eq_true] at h
  obtain ⟨⟨⟨hd, hdd⟩, hs⟩, hp⟩ := h
  cases hdue : p.due_date with
  | none =>
    simp [rawTaskJson, wfJson, wfJObj, hdue, hd, hs, hp]
    decide
  | some s =>
    rw [hdue] at hdd
    simp [rawTaskJson, wfJson, wfJObj, hdue, hd, hs, hp, show wfStrB s = true from hdd]
    decide

/-- Helper: a writable task collection encodes to a well-formed JSON array. -/
theorem wfJson_rawTasks (ps : List RawTask) (h : wfRawTasksB ps = true) :
    wfJson (rawTasksJson ps) = true := by
  induction ps with
  | nil => decide
  | cons p ps ih =>
    have h2 : wfRawTaskB p = true ∧ wfRawTasksB ps = true := by
      simpa [wfRawTasksB, Bool.and_eq_true] using h
    have hhead := wfJson_rawTaskJson p h2.1
    have htail := ih h2.2
    simp only [rawTasksJson, rawTasksArr, wfJson, wfJArr, Bool.and_eq_true]
    exact ⟨hhead, htail⟩

/-- C3: for every collection of task records present in the store (writable
strings, as anything Python can have written or can re-write), loading,
saving the loaded collection, and loading again yields the same collection as
the first load: the persistence round trip is stable. -/
theorem claim_C3 (st : Store) (ps : List RawTask) (hwf : wfRawTasksB ps = true)
    (hload : load_tasks st = rawTasksJson ps) :
    load_tasks (save_tasks (load_tasks st)) = load_tasks st := by
  rw [hload, save_tasks]
  show load_tasks (Store.file (dumpVal 0 (rawTasksJson ps))) = rawTasksJson ps
  simp only [load_tasks]
  rw [parseJson_dump _ (wfJson_rawTasks ps hwf)]

/-- Concrete task record for the persistence witnesses: description "a", no
due date, status "pending", priority "medium". -/
def exRawTask : RawTask :=
  ⟨[97], none, [112, 101, 110, 100, 105, 110, 103], [109, 101, 100, 105, 117, 109]⟩

/-- Witness for C3 at a concrete input: a store holding one serialized task. -/
theorem claim_C3_witness :
    wfRawTasksB [exRawTask] = true
    ∧ load_tasks (Store.file (dumpVal 0 (rawTasksJson [exRawTask]))) = rawTasksJson [exRawTask]
    ∧ load_tasks (save_tasks (load_tasks (Store.file (dumpVal 0 (rawTasksJson [exRawTask])))))
        = load_tasks (Store.file (dumpVal 0 (rawTasksJson [exRawTask]))) :=
  ⟨by decide, by decide,
   claim_C3 (Store.file (dumpVal 0 (rawTasksJson [exRawTask]))) [exRawTask]
     (by decide) (by decide)⟩

/-- C4 counterexample: a store whose content is `{}` is valid JSON but not an
array of task records; the claim says such contents yield the empty sequence,
yet `load_tasks` returns the parsed object itself, not the empty list. -/
theorem claim_C4_counterexample :
    parseJson [123, 125] = some (Json.obj JObj.nil)
    ∧ load_tasks (Store.file [123, 125]) = Json.obj JObj.nil
    ∧ load_tasks (Store.file [123, 125]) ≠ Json.arr JArr.nil := by
  decide

/-- C4 amended: `load_tasks` is a total function (it never raises within the
modelled semantics); a missing store and contents that fail to parse as JSON
yield the empty list; but contents that parse as any JSON value at all are
returned as parsed, with no check that they form an array of task records. -/
theorem claim_C4 (s : List Nat) :
    load_tasks Store.missing = Json.arr JArr.nil
    ∧ (parseJson s = none → load_tasks (Store.file s) = Json.arr JArr.nil)
    ∧ (∀ j, parseJson s = some j → load_tasks (Store.file s) = j) := by
  refine ⟨rfl, ?_, ?_⟩
  · intro h
    simp [load_tasks, h]
  · intro j h
    simp [load_tasks, h]

/-- Witness for C4 at concrete inputs: the store text "hello" is not JSON and
loads as the empty list, as does a missing store. -/
theorem claim_C4_witness :
    parseJson [104, 101, 108, 108, 111] = none
    ∧ load_tasks (Store.file [104, 101, 108, 108, 111]) = Json.arr JArr.nil
    ∧ load_tasks Store.missing = Json.arr JArr.nil :=
  ⟨by decide, (claim_C4 [104, 101, 108, 108, 111]).2.1 (by decide),
   (claim_C4 []).1⟩

end Todo
